import Mathlib

/-!
# sondeInterfacing: the bit-timed serial receiver of lowLevel.c

A shallow embedding of the sketch lowLevel.c (its globals, loop() and the
three Arduino calls loop() makes) and the properties of its receiver.

The Arduino core functions digitalRead, delayMicroseconds and
Serial.println are not part of the repository; loop takes them as a record
of operations over a world type. Two worlds are given: a scripted world, in which
the reads return a prepared list of levels, and a timed line, in which a read
returns the level of a signal at the current microsecond.
-/

namespace Sonde

/-! ## Constants of lowLevel.c (lines 3-11) -/

/-- Logic level HIGH of the Arduino core (the value 1). -/
abbrev HIGH : Bool := true

/-- Logic level LOW of the Arduino core (the value 0). -/
abbrev LOW : Bool := false

/-- Source: const int rxPin = 0. -/
def rxPin : Nat := 0

/-- Source: const int txPin = 1. -/
def txPin : Nat := 1

/-- Source: const int dataBits = 8. -/
def dataBits : Nat := 8

/-- Source: const int bit9600Delay = 84. -/
def bit9600Delay : Nat := 84

/-- Source: const int halfBit9600Delay = 42. -/
def halfBit9600Delay : Nat := 42

/-- Source: const int bit4800Delay = 188 (unused by loop). -/
def bit4800Delay : Nat := 188

/-- Source: const int halfBit4800Delay = 94 (unused by loop). -/
def halfBit4800Delay : Nat := 94

/-- Number of cells of the global array: char sondeData[9999]. -/
def sondeDataLen : Nat := 9999

/-- Number of values of an unsigned int on the 8-bit AVR boards the sketch is
written for (16 bits); the increment of sondeDataSize wraps at this modulus. -/
def uintModulus : Nat := 65536

/-! ## The Arduino calls made by loop -/

/-- The three Arduino core calls of loop(), as operations on a world type:
digitalRead(pin) returns a level and the world after the read,
delayMicroseconds(us) and Serial.println(text) return the world after the call. -/
structure Arduino (ω : Type) where
  digitalRead : Nat → ω → Bool × ω
  delayMicroseconds : Nat → ω → ω
  println : String → ω → ω

/-! ## Globals of the sketch -/

/-- The globals of lowLevel.c together with the world the sketch runs in.
sondeData i is cell i of the array (for i below sondeDataLen), as a byte
pattern 0..255: the conversion (char) keeps the 8 bits. sondeDataSize is the
global count. A store whose index is not below sondeDataLen does not land in
the array: it is recorded in stray as (index, byte), oldest first. -/
structure Sketch (ω : Type) where
  sondeData : Nat → Nat
  sondeDataSize : Nat
  stray : List (Nat × Nat)
  world : ω

/-- The state at startup: the globals are zero-initialised. -/
def Sketch.reset {ω : Type} (w : ω) : Sketch ω :=
  { sondeData := fun _ => 0, sondeDataSize := 0, stray := [], world := w }

/-- The assignment sondeData[i] = c (line 36): no bounds check is made. -/
def Sketch.store {ω : Type} (s : Sketch ω) (i c : Nat) : Sketch ω :=
  if i < sondeDataLen then { s with sondeData := fun j => if j = i then c else s.sondeData j }
  else { s with stray := s.stray ++ [(i, c)] }

/-! ## loop() -/

/-- Line 24: while (digitalRead(rxPin)); the busy wait. One unit of fuel is one
read; none means the wait has not ended within the fuel. -/
def waitStart {ω : Type} (hw : Arduino ω) : Nat → ω → Option ω
  | 0, _ => none
  | fuel + 1, w =>
    match hw.digitalRead rxPin w with
    | (true, w1) => waitStart hw fuel w1
    | (false, w1) => some w1

/-- One turn of the for loop (lines 29-30): delayMicroseconds(bit9600Delay),
then sondeInput |= digitalRead(rxPin) << offset, on a byte. -/
def sampleBit {ω : Type} (hw : Arduino ω) (acc : Nat × ω) (offset : Nat) : Nat × ω :=
  let w1 := hw.delayMicroseconds bit9600Delay acc.2
  let r := hw.digitalRead rxPin w1
  ((acc.1 ||| (r.1.toNat <<< offset)) % 256, r.2)

/-- Lines 28-31: for (int offset = 0; offset < dataBits; offset++). -/
def sampleBits {ω : Type} (hw : Arduino ω) (sondeInput : Nat) (w : ω) : Nat × ω :=
  (List.range dataBits).foldl (sampleBit hw) (sondeInput, w)

/-- Lines 26-37, the body of the if: half-bit delay, the 8 samples, the status
line, two bit delays, the store and the increment of the count. -/
def receiveFrame {ω : Type} (hw : Arduino ω) (sondeInput : Nat) (s : Sketch ω) : Sketch ω :=
  let w3 := hw.delayMicroseconds halfBit9600Delay s.world
  let r := sampleBits hw sondeInput w3
  let w5 := hw.println "loop is running" r.2
  let w6 := hw.delayMicroseconds bit9600Delay w5
  let w7 := hw.delayMicroseconds bit9600Delay w6
  let s8 := ({ s with world := w7 }).store s.sondeDataSize r.1
  { s8 with sondeDataSize := (s8.sondeDataSize + 1) % uintModulus }

/-- One call of loop() (lines 22-39). sondeInput starts as the character i
(code 105 = 0x69). The result is none when the busy wait does not end within
the fuel. -/
def loop {ω : Type} (hw : Arduino ω) (fuel : Nat) (s : Sketch ω) : Option (Sketch ω) :=
  let sondeInput := 105
  match waitStart hw fuel s.world with
  | none => none
  | some w1 =>
    let r := hw.digitalRead rxPin w1
    if r.1 = LOW then some (receiveFrame hw sondeInput { s with world := r.2 })
    else some { s with world := r.2 }

/-- The Arduino main program calls loop() again and again: n calls in a row,
each with the same fuel for its busy wait. -/
def runLoops {ω : Type} (hw : Arduino ω) (fuel : Nat) : Nat → Sketch ω → Option (Sketch ω)
  | 0, s => some s
  | n + 1, s => (loop hw fuel s).bind (runLoops hw fuel n)

/-! ## A scripted pin -/

/-- A world in which the reads of the pin return prepared levels.
pending: the levels still to be returned, in order; once it is exhausted the
line reads HIGH (idle). seen: the levels returned so far, oldest first.
micros: the time spent in delayMicroseconds. serial: the lines written to the
debug channel, oldest first. -/
structure Script where
  pending : List Bool
  seen : List Bool
  micros : Nat
  serial : List String
deriving DecidableEq

/-- The Arduino calls on a scripted world. -/
def scripted : Arduino Script where
  digitalRead _ w :=
    match w.pending with
    | [] => (HIGH, { w with seen := w.seen ++ [HIGH] })
    | v :: vs => (v, { w with pending := vs, seen := w.seen ++ [v] })
  delayMicroseconds us w := { w with micros := w.micros + us }
  println text w := { w with serial := w.serial ++ [text] }

/-- A scripted world at time 0 with nothing read and nothing written. -/
def Script.start (levels : List Bool) : Script :=
  { pending := levels, seen := [], micros := 0, serial := [] }

/-! ## A timed line -/

/-- A world in which the pin follows a signal in time. level t is the level
of the line at microsecond t, micros is the current time, readMicros is the
time one digitalRead takes (0: the read is instantaneous, its cost being part
of the hand-tuned delay constants), serial is the debug output. -/
structure Line where
  level : Nat → Bool
  micros : Nat
  readMicros : Nat
  serial : List String

/-- The Arduino calls on a timed line: a read samples the level at the current
time; Serial.println takes no time. -/
def wire : Arduino Line where
  digitalRead _ w := (w.level w.micros, { w with micros := w.micros + w.readMicros })
  delayMicroseconds us w := { w with micros := w.micros + us }
  println text w := { w with serial := w.serial ++ [text] }

/-- The level at time t of a line that idles HIGH and carries one frame of the
byte b whose start edge is at time edge: a LOW start bit, the 8 bits of b
least-significant first, then HIGH (stop bit and idle), each bit lasting
bit9600Delay microseconds. -/
def frameLevel (edge b t : Nat) : Bool :=
  if t < edge then HIGH
  else
    let slot := (t - edge) / bit9600Delay
    if slot = 0 then LOW
    else if slot ≤ dataBits then b.testBit (slot - 1)
    else HIGH

/-- The level of a line carrying two frames: the frame of b1 with start edge
at edge1 and, from time edge2 on, the frame of b2 with start edge at edge2. -/
def twoFrames (edge1 b1 edge2 b2 t : Nat) : Bool :=
  if t < edge2 then frameLevel edge1 b1 t else frameLevel edge2 b2 t

/-- A timed line at time start with an empty debug output. -/
def Line.start (level : Nat → Bool) (start readMicros : Nat) : Line :=
  { level := level, micros := start, readMicros := readMicros, serial := [] }

/-- Two sketches on scripted worlds that agree on everything decoding can
depend on: the cells, the count, the stray stores and the samples to come. -/
def sameDecoding (s1 s2 : Sketch Script) : Prop :=
  s1.sondeData = s2.sondeData ∧ s1.sondeDataSize = s2.sondeDataSize ∧
    s1.stray = s2.stray ∧ s1.world.pending = s2.world.pending

/-! ## Basic facts about the model -/

theorem store_in_bounds {ω : Type} (s : Sketch ω) (i c : Nat) (h : i < sondeDataLen) :
    s.store i c = { s with sondeData := fun j => if j = i then c else s.sondeData j } := by
  unfold Sketch.store
  rw [if_pos h]

theorem store_out_of_bounds {ω : Type} (s : Sketch ω) (i c : Nat) (h : ¬ i < sondeDataLen) :
    s.store i c = { s with stray := s.stray ++ [(i, c)] } := by
  unfold Sketch.store
  rw [if_neg h]

theorem store_world {ω : Type} (s : Sketch ω) (i c : Nat) : (s.store i c).world = s.world := by
  unfold Sketch.store
  split <;> rfl

theorem store_size {ω : Type} (s : Sketch ω) (i c : Nat) :
    (s.store i c).sondeDataSize = s.sondeDataSize := by
  unfold Sketch.store
  split <;> rfl

theorem receiveFrame_world {ω : Type} (hw : Arduino ω) (acc : Nat) (s : Sketch ω) :
    (receiveFrame hw acc s).world =
      hw.delayMicroseconds bit9600Delay (hw.delayMicroseconds bit9600Delay
        (hw.println "loop is running"
          (sampleBits hw acc (hw.delayMicroseconds halfBit9600Delay s.world)).2)) := by
  simp [receiveFrame, store_world]

theorem receiveFrame_size {ω : Type} (hw : Arduino ω) (acc : Nat) (s : Sketch ω) :
    (receiveFrame hw acc s).sondeDataSize = (s.sondeDataSize + 1) % uintModulus := by
  simp [receiveFrame, store_size]

theorem receiveFrame_data {ω : Type} (hw : Arduino ω) (acc : Nat) (s : Sketch ω)
    (h : s.sondeDataSize < sondeDataLen) :
    (receiveFrame hw acc s).sondeData = fun j =>
      if j = s.sondeDataSize then
        (sampleBits hw acc (hw.delayMicroseconds halfBit9600Delay s.world)).1
      else s.sondeData j := by
  simp [receiveFrame, store_in_bounds _ _ _ h]

theorem receiveFrame_mk_data {ω : Type} (hw : Arduino ω) (acc : Nat) (cells : Nat → Nat)
    (n : Nat) (st : List (Nat × Nat)) (w : ω) (h : n < sondeDataLen) :
    (receiveFrame hw acc ⟨cells, n, st, w⟩).sondeData = fun j =>
      if j = n then (sampleBits hw acc (hw.delayMicroseconds halfBit9600Delay w)).1
      else cells j :=
  receiveFrame_data hw acc ⟨cells, n, st, w⟩ h

theorem receiveFrame_stray {ω : Type} (hw : Arduino ω) (acc : Nat) (s : Sketch ω)
    (h : s.sondeDataSize < sondeDataLen) :
    (receiveFrame hw acc s).stray = s.stray := by
  simp [receiveFrame, store_in_bounds _ _ _ h]

theorem receiveFrame_stray_full {ω : Type} (hw : Arduino ω) (acc : Nat) (s : Sketch ω)
    (h : ¬ s.sondeDataSize < sondeDataLen) :
    (receiveFrame hw acc s).stray = s.stray ++ [(s.sondeDataSize,
        (sampleBits hw acc (hw.delayMicroseconds halfBit9600Delay s.world)).1)] := by
  simp [receiveFrame, store_out_of_bounds _ _ _ h]

/-- Once the busy wait has ended in the world w1, loop returns: the frame body
when the confirming read is LOW, the state with only the world advanced
otherwise. -/
theorem loop_of_wait {ω : Type} (hw : Arduino ω) (fuel : Nat) (s : Sketch ω) (w1 : ω)
    (hwait : waitStart hw fuel s.world = some w1) :
    loop hw fuel s =
      some (if (hw.digitalRead rxPin w1).1 = LOW then
          receiveFrame hw 105 { s with world := (hw.digitalRead rxPin w1).2 }
        else { s with world := (hw.digitalRead rxPin w1).2 }) := by
  unfold loop
  simp only [hwait]
  split <;> rfl

theorem loop_of_no_wait {ω : Type} (hw : Arduino ω) (fuel : Nat) (s : Sketch ω)
    (hwait : waitStart hw fuel s.world = none) : loop hw fuel s = none := by
  unfold loop
  simp only [hwait]

/-! ## The scripted world -/

theorem scripted_read_cons (p : Nat) (w : Script) (v : Bool) (vs : List Bool)
    (h : w.pending = v :: vs) :
    scripted.digitalRead p w = (v, { w with pending := vs, seen := w.seen ++ [v] }) := by
  simp [scripted, h]

theorem scripted_read_serial (p : Nat) (w : Script) :
    (scripted.digitalRead p w).2.serial = w.serial := by
  unfold scripted
  cases h : w.pending <;> simp [h]

theorem scripted_read_seen (p : Nat) (w : Script) :
    (scripted.digitalRead p w).2.seen = w.seen ++ [(scripted.digitalRead p w).1] := by
  unfold scripted
  cases h : w.pending <;> simp [h]

theorem scripted_read_micros (p : Nat) (w : Script) :
    (scripted.digitalRead p w).2.micros = w.micros := by
  unfold scripted
  cases h : w.pending <;> simp [h]

/-- A busy wait that ends has read some number j of HIGH levels and then one
LOW level, and has written nothing. -/
theorem waitStart_scripted_trace (fuel : Nat) (w w1 : Script)
    (h : waitStart scripted fuel w = some w1) :
    ∃ j, j < fuel ∧ w1.seen = w.seen ++ List.replicate j HIGH ++ [LOW] ∧
      w1.serial = w.serial ∧ w1.micros = w.micros := by
  induction fuel generalizing w with
  | zero => simp [waitStart] at h
  | succ n ih =>
    unfold waitStart at h
    have hseen := scripted_read_seen rxPin w
    have hser := scripted_read_serial rxPin w
    have hmic := scripted_read_micros rxPin w
    generalize scripted.digitalRead rxPin w = r at h hseen hser hmic
    obtain ⟨v, w2⟩ := r
    cases v with
    | true =>
      simp only at h hseen hser hmic
      obtain ⟨j, hj, h1, h2, h3⟩ := ih w2 h
      refine ⟨j + 1, by omega, ?_, by rw [h2, hser], by rw [h3, hmic]⟩
      rw [h1, hseen, List.replicate_succ]
      simp
    | false =>
      simp only at h hseen hser hmic
      cases h
      exact ⟨0, by omega, by simpa using hseen, hser, hmic⟩

/-- On a script that starts with j HIGH levels and a LOW level the busy wait
is over after j + 1 reads. -/
theorem waitStart_scripted_run (j extra : Nat) (w : Script) (rest : List Bool)
    (h : w.pending = List.replicate j HIGH ++ LOW :: rest) :
    waitStart scripted (j + 1 + extra) w =
      some { w with pending := rest, seen := w.seen ++ List.replicate j HIGH ++ [LOW] } := by
  induction j generalizing w with
  | zero =>
    have h0 : w.pending = LOW :: rest := by simpa using h
    rw [show 0 + 1 + extra = extra + 1 by omega]
    unfold waitStart
    rw [scripted_read_cons rxPin w LOW rest h0]
    simp
  | succ n ih =>
    have h0 : w.pending = HIGH :: (List.replicate n HIGH ++ LOW :: rest) := by
      simpa [List.replicate_succ] using h
    rw [show n + 1 + 1 + extra = (n + 1 + extra) + 1 by omega]
    unfold waitStart
    rw [scripted_read_cons rxPin w HIGH _ h0]
    simp only
    rw [ih _ rfl]
    simp [List.replicate_succ]

theorem sampleBit_scripted_trace (acc : Nat × Script) (offset : Nat) :
    (sampleBit scripted acc offset).2.serial = acc.2.serial ∧
      ∃ v, (sampleBit scripted acc offset).2.seen = acc.2.seen ++ [v] := by
  unfold sampleBit
  refine ⟨?_, ?_⟩
  · simp only [scripted_read_serial]
    rfl
  · exact ⟨(scripted.digitalRead rxPin (scripted.delayMicroseconds bit9600Delay acc.2)).1,
      by simp only [scripted_read_seen]; rfl⟩

theorem foldl_sampleBit_scripted_trace (offsets : List Nat) (acc : Nat × Script) :
    (offsets.foldl (sampleBit scripted) acc).2.serial = acc.2.serial ∧
      ∃ d : List Bool, d.length = offsets.length ∧
        (offsets.foldl (sampleBit scripted) acc).2.seen = acc.2.seen ++ d := by
  induction offsets generalizing acc with
  | nil => exact ⟨rfl, [], rfl, by simp⟩
  | cons o os ih =>
    obtain ⟨hs, d, hd, hseen⟩ := ih (sampleBit scripted acc o)
    obtain ⟨hs1, v, hv⟩ := sampleBit_scripted_trace acc o
    refine ⟨by simpa [List.foldl] using hs.trans hs1, v :: d, by simp [hd], ?_⟩
    simp only [List.foldl]
    rw [hseen, hv]
    simp

theorem sampleBits_scripted_trace (acc : Nat) (w : Script) :
    (sampleBits scripted acc w).2.serial = w.serial ∧
      ∃ d : List Bool, d.length = 8 ∧ (sampleBits scripted acc w).2.seen = w.seen ++ d := by
  have h := foldl_sampleBit_scripted_trace (List.range dataBits) (acc, w)
  simpa [sampleBits, dataBits] using h

/-! ## The buffer is append-only -/

/-- C9: for a state whose count n is below the capacity and a busy wait that
has ended, loop returns; when the confirming read is LOW (a frame is decoded)
the count becomes n + 1, the assembled byte is in cell n, every other cell is
unchanged and nothing is stored outside the array; when the confirming read is
HIGH (no frame) the cells, the count and the stray stores are unchanged. -/
theorem loop_append_only {ω : Type} (hw : Arduino ω) (fuel : Nat) (s : Sketch ω) (w1 : ω)
    (hn : s.sondeDataSize < sondeDataLen)
    (hwait : waitStart hw fuel s.world = some w1) :
    ∃ s', loop hw fuel s = some s' ∧
      ((hw.digitalRead rxPin w1).1 = LOW →
        s'.sondeDataSize = s.sondeDataSize + 1 ∧
        s'.sondeData s.sondeDataSize =
          (sampleBits hw 105
            (hw.delayMicroseconds halfBit9600Delay (hw.digitalRead rxPin w1).2)).1 ∧
        (∀ i, i ≠ s.sondeDataSize → s'.sondeData i = s.sondeData i) ∧
        s'.stray = s.stray) ∧
      ((hw.digitalRead rxPin w1).1 = HIGH →
        s'.sondeData = s.sondeData ∧ s'.sondeDataSize = s.sondeDataSize ∧
        s'.stray = s.stray) := by
  refine ⟨_, loop_of_wait hw fuel s w1 hwait, ?_, ?_⟩
  · intro hlow
    have hn2 : ({ s with world := (hw.digitalRead rxPin w1).2 } : Sketch ω).sondeDataSize
        < sondeDataLen := hn
    rw [if_pos hlow]
    refine ⟨?_, ?_, ?_, ?_⟩
    · rw [receiveFrame_size]
      have : s.sondeDataSize + 1 < uintModulus := by
        unfold sondeDataLen at hn
        unfold uintModulus
        omega
      exact Nat.mod_eq_of_lt this
    · rw [receiveFrame_data _ _ _ hn2]
      simp
    · intro i hi
      rw [receiveFrame_data _ _ _ hn2]
      simp [hi]
    · rw [receiveFrame_stray _ _ _ hn2]
  · intro hhigh
    have hne : ¬ (hw.digitalRead rxPin w1).1 = LOW := by
      rw [hhigh]
      decide
    rw [if_neg hne]
    exact ⟨rfl, rfl, rfl⟩

/-- Witness for C9: a reset sketch on the script HIGH, LOW, LOW. -/
theorem loop_append_only_witness :
    (Sketch.reset (Script.start [HIGH, LOW, LOW])).sondeDataSize < sondeDataLen ∧
    waitStart scripted 2 (Sketch.reset (Script.start [HIGH, LOW, LOW])).world =
      some ⟨[LOW], [HIGH, LOW], 0, []⟩ ∧
    ∃ s', loop scripted 2 (Sketch.reset (Script.start [HIGH, LOW, LOW])) = some s' ∧
      s'.sondeDataSize = 1 :=
  ⟨by decide, rfl,
    (loop_append_only scripted 2 (Sketch.reset (Script.start [HIGH, LOW, LOW]))
      ⟨[LOW], [HIGH, LOW], 0, []⟩ (by decide) rfl).imp
      (fun _ h => ⟨h.1, (h.2.1 rfl).1⟩)⟩

/-! ## The status line -/

/-- C7 (counterexample): on the script LOW, HIGH the busy wait ends at the
first read, the confirming read returns HIGH, and loop returns without having
written anything to the debug channel. -/
theorem loop_silent_when_confirm_high :
    ∃ s', loop scripted 1 (Sketch.reset (Script.start [LOW, HIGH])) = some s' ∧
      s'.world.seen = [LOW, HIGH] ∧ s'.world.serial = [] :=
  ⟨_, rfl, rfl, rfl⟩

/-- C7 (amended): every iteration of loop that returns has ended its busy
wait, and it writes the status line exactly once when the confirming read is
LOW and nothing when the confirming read is HIGH; the text is the same
whatever the data samples are. -/
theorem loop_status_line (fuel : Nat) (s s' : Sketch Script)
    (hret : loop scripted fuel s = some s') :
    ∃ w1, waitStart scripted fuel s.world = some w1 ∧
      ((scripted.digitalRead rxPin w1).1 = LOW →
        s'.world.serial = s.world.serial ++ ["loop is running"]) ∧
      ((scripted.digitalRead rxPin w1).1 = HIGH → s'.world.serial = s.world.serial) := by
  cases hwait : waitStart scripted fuel s.world with
  | none => rw [loop_of_no_wait _ _ _ hwait] at hret; cases hret
  | some w1 =>
    rw [loop_of_wait _ _ _ w1 hwait] at hret
    obtain ⟨_, _, _, hser, _⟩ := waitStart_scripted_trace fuel s.world w1 hwait
    have hread := scripted_read_serial rxPin w1
    refine ⟨w1, rfl, ?_, ?_⟩
    · intro hlow
      rw [if_pos hlow] at hret
      cases hret
      rw [receiveFrame_world]
      have h := (sampleBits_scripted_trace 105
        (scripted.delayMicroseconds halfBit9600Delay (scripted.digitalRead rxPin w1).2)).1
      show (sampleBits scripted 105 _).2.serial ++ ["loop is running"] = _
      rw [h]
      show (scripted.digitalRead rxPin w1).2.serial ++ _ = _
      rw [hread, hser]
    · intro hhigh
      have hne : ¬ (scripted.digitalRead rxPin w1).1 = LOW := by
        rw [hhigh]
        decide
      rw [if_neg hne] at hret
      cases hret
      show (scripted.digitalRead rxPin w1).2.serial = _
      rw [hread, hser]

/-- Witness for C7 (amended): the script LOW, LOW (the data reads find the
exhausted script idle). -/
theorem loop_status_line_witness :
    ∃ s', loop scripted 1 (Sketch.reset (Script.start [LOW, LOW])) = some s' ∧
      ∃ w1, waitStart scripted 1 (Sketch.reset (Script.start [LOW, LOW])).world = some w1 ∧
        ((scripted.digitalRead rxPin w1).1 = LOW →
          s'.world.serial =
            (Sketch.reset (Script.start [LOW, LOW])).world.serial ++ ["loop is running"]) ∧
        ((scripted.digitalRead rxPin w1).1 = HIGH →
          s'.world.serial = (Sketch.reset (Script.start [LOW, LOW])).world.serial) :=
  ⟨_, rfl, loop_status_line 1 (Sketch.reset (Script.start [LOW, LOW])) _ rfl⟩

/-! ## Start-bit detection -/

/-- C8 (counterexample): on a script of ten LOW levels the first read of the
iteration is LOW, no read of the iteration returns HIGH, and yet the 8 data
bits are sampled and a byte is stored. -/
theorem loop_samples_without_high :
    ∃ s', loop scripted 1 (Sketch.reset (Script.start (List.replicate 10 LOW))) = some s' ∧
      s'.world.seen = List.replicate 10 LOW ∧ s'.sondeDataSize = 1 ∧
      s'.sondeData 0 = 105 :=
  ⟨_, rfl, rfl, rfl, rfl⟩

/-- C8 (amended): the reads of an iteration of loop that returns are j reads
returning HIGH (j may be 0), then one read returning LOW, then the confirming
read; the iteration samples exactly when the confirming read is LOW too, in
which case 8 data reads d follow and the count is incremented, and otherwise
nothing more is read and the count is unchanged. -/
theorem loop_reads (fuel : Nat) (s s' : Sketch Script)
    (hret : loop scripted fuel s = some s') :
    ∃ j, j < fuel ∧
      ((∃ d : List Bool, d.length = 8 ∧
          s'.world.seen = s.world.seen ++ List.replicate j HIGH ++ [LOW, LOW] ++ d ∧
          s'.sondeDataSize = (s.sondeDataSize + 1) % uintModulus) ∨
        (s'.world.seen = s.world.seen ++ List.replicate j HIGH ++ [LOW, HIGH] ∧
          s'.sondeDataSize = s.sondeDataSize)) := by
  cases hwait : waitStart scripted fuel s.world with
  | none => rw [loop_of_no_wait _ _ _ hwait] at hret; cases hret
  | some w1 =>
    rw [loop_of_wait _ _ _ w1 hwait] at hret
    obtain ⟨j, hj, hseen, _, _⟩ := waitStart_scripted_trace fuel s.world w1 hwait
    have hread := scripted_read_seen rxPin w1
    refine ⟨j, hj, ?_⟩
    by_cases hlow : (scripted.digitalRead rxPin w1).1 = LOW
    · left
      rw [if_pos hlow] at hret
      cases hret
      obtain ⟨d, hd, hdseen⟩ := (sampleBits_scripted_trace 105
        (scripted.delayMicroseconds halfBit9600Delay (scripted.digitalRead rxPin w1).2)).2
      refine ⟨d, hd, ?_, receiveFrame_size _ _ _⟩
      rw [receiveFrame_world]
      show (sampleBits scripted 105 _).2.seen = _
      rw [hdseen]
      show (scripted.digitalRead rxPin w1).2.seen ++ d = _
      rw [hread, hlow, hseen]
      simp
    · right
      rw [if_neg hlow] at hret
      cases hret
      refine ⟨?_, rfl⟩
      show (scripted.digitalRead rxPin w1).2.seen = _
      have hv : (scripted.digitalRead rxPin w1).1 = HIGH := by
        cases h : (scripted.digitalRead rxPin w1).1
        · exact absurd h hlow
        · rfl
      rw [hread, hv, hseen]
      simp

/-- Witness for C8 (amended): the script HIGH, LOW, LOW followed by 8 data
levels. -/
theorem loop_reads_witness :
    ∃ s', loop scripted 2 (Sketch.reset (Script.start
        [HIGH, LOW, LOW, HIGH, LOW, LOW, LOW, LOW, LOW, HIGH, LOW])) = some s' ∧
      ∃ j, j < 2 ∧
        ((∃ d : List Bool, d.length = 8 ∧
            s'.world.seen = (Sketch.reset (Script.start
                [HIGH, LOW, LOW, HIGH, LOW, LOW, LOW, LOW, LOW, HIGH, LOW])).world.seen ++
              List.replicate j HIGH ++ [LOW, LOW] ++ d ∧
            s'.sondeDataSize = ((Sketch.reset (Script.start
                [HIGH, LOW, LOW, HIGH, LOW, LOW, LOW, LOW, LOW, HIGH, LOW])).sondeDataSize + 1)
              % uintModulus) ∨
          (s'.world.seen = (Sketch.reset (Script.start
                [HIGH, LOW, LOW, HIGH, LOW, LOW, LOW, LOW, LOW, HIGH, LOW])).world.seen ++
              List.replicate j HIGH ++ [LOW, HIGH] ∧
            s'.sondeDataSize = (Sketch.reset (Script.start
                [HIGH, LOW, LOW, HIGH, LOW, LOW, LOW, LOW, LOW, HIGH, LOW])).sondeDataSize)) :=
  ⟨_, rfl, loop_reads 2 _ _ rfl⟩

/-! ## The assembled byte -/

theorem range_dataBits : List.range dataBits = [0, 1, 2, 3, 4, 5, 6, 7] := by decide

/-- The for loop on a script that holds the 8 data levels next. -/
theorem sampleBits_scripted_run (acc : Nat) (w : Script) (s0 s1 s2 s3 s4 s5 s6 s7 : Bool)
    (rest : List Bool)
    (h : w.pending = s0 :: s1 :: s2 :: s3 :: s4 :: s5 :: s6 :: s7 :: rest) :
    (sampleBits scripted acc w).1 =
      ((((((((acc ||| (s0.toNat <<< 0)) % 256 ||| (s1.toNat <<< 1)) % 256
        ||| (s2.toNat <<< 2)) % 256 ||| (s3.toNat <<< 3)) % 256
        ||| (s4.toNat <<< 4)) % 256 ||| (s5.toNat <<< 5)) % 256
        ||| (s6.toNat <<< 6)) % 256 ||| (s7.toNat <<< 7)) % 256 := by
  obtain ⟨p, sn, m, l⟩ := w
  simp only at h
  subst h
  simp [sampleBits, range_dataBits, sampleBit, scripted]

theorem assemble_i (s0 s1 s2 s3 s4 s5 s6 s7 : Bool) :
    ((((((((105 ||| (s0.toNat <<< 0)) % 256 ||| (s1.toNat <<< 1)) % 256
        ||| (s2.toNat <<< 2)) % 256 ||| (s3.toNat <<< 3)) % 256
        ||| (s4.toNat <<< 4)) % 256 ||| (s5.toNat <<< 5)) % 256
        ||| (s6.toNat <<< 6)) % 256 ||| (s7.toNat <<< 7)) % 256 =
      105 ||| (s0.toNat * 1 + s1.toNat * 2 + s2.toNat * 4 + s3.toNat * 8 + s4.toNat * 16 +
        s5.toNat * 32 + s6.toNat * 64 + s7.toNat * 128) := by
  cases s0 <;> cases s1 <;> cases s2 <;> cases s3 <;> cases s4 <;> cases s5 <;>
    cases s6 <;> cases s7 <;> rfl

theorem i_or_bits (x : Nat) :
    (105 ||| x).testBit 0 = true ∧ (105 ||| x).testBit 3 = true ∧
      (105 ||| x).testBit 5 = true ∧ (105 ||| x).testBit 6 = true := by
  have h0 : Nat.testBit 105 0 = true := by decide
  have h3 : Nat.testBit 105 3 = true := by decide
  have h5 : Nat.testBit 105 5 = true := by decide
  have h6 : Nat.testBit 105 6 = true := by decide
  simp [Nat.testBit_lor, h0, h3, h5, h6]

theorem i_or_eq_iff (s0 s1 s2 s3 s4 s5 s6 s7 : Bool) :
    105 ||| (s0.toNat * 1 + s1.toNat * 2 + s2.toNat * 4 + s3.toNat * 8 + s4.toNat * 16 +
        s5.toNat * 32 + s6.toNat * 64 + s7.toNat * 128) =
      s0.toNat * 1 + s1.toNat * 2 + s2.toNat * 4 + s3.toNat * 8 + s4.toNat * 16 +
        s5.toNat * 32 + s6.toNat * 64 + s7.toNat * 128 ↔
    (s0 = true ∧ s3 = true ∧ s5 = true ∧ s6 = true) := by
  cases s0 <;> cases s1 <;> cases s2 <;> cases s3 <;> cases s4 <;> cases s5 <;>
    cases s6 <;> cases s7 <;> decide

/-- C10: for every 8 data samples s0..s7, when loop decodes a frame with those
samples (after j HIGH reads, the LOW read that ends the wait and a LOW
confirming read) at a count n below the capacity, the byte stored in cell n is
0x69 OR (s0*1 + s1*2 + ... + s7*128); so bits 0, 3, 5 and 6 of the stored byte
are set, and the stored byte equals the sampled byte exactly when samples 0, 3,
5 and 6 are all 1. -/
theorem loop_stores_i_or_samples (j : Nat) (s0 s1 s2 s3 s4 s5 s6 s7 : Bool)
    (rest : List Bool) (s : Sketch Script)
    (hn : s.sondeDataSize < sondeDataLen)
    (hp : s.world.pending = List.replicate j HIGH ++
      LOW :: LOW :: s0 :: s1 :: s2 :: s3 :: s4 :: s5 :: s6 :: s7 :: rest) :
    ∃ s', loop scripted (j + 1) s = some s' ∧
      s'.sondeData s.sondeDataSize =
        0x69 ||| (s0.toNat * 1 + s1.toNat * 2 + s2.toNat * 4 + s3.toNat * 8 +
          s4.toNat * 16 + s5.toNat * 32 + s6.toNat * 64 + s7.toNat * 128) ∧
      ((s'.sondeData s.sondeDataSize).testBit 0 = true ∧
        (s'.sondeData s.sondeDataSize).testBit 3 = true ∧
        (s'.sondeData s.sondeDataSize).testBit 5 = true ∧
        (s'.sondeData s.sondeDataSize).testBit 6 = true) ∧
      (s'.sondeData s.sondeDataSize =
          s0.toNat * 1 + s1.toNat * 2 + s2.toNat * 4 + s3.toNat * 8 +
            s4.toNat * 16 + s5.toNat * 32 + s6.toNat * 64 + s7.toNat * 128 ↔
        (s0 = true ∧ s3 = true ∧ s5 = true ∧ s6 = true)) := by
  have hwait := waitStart_scripted_run j 0 s.world _ hp
  have hread := scripted_read_cons rxPin
    { s.world with
      pending := LOW :: s0 :: s1 :: s2 :: s3 :: s4 :: s5 :: s6 :: s7 :: rest,
      seen := s.world.seen ++ List.replicate j HIGH ++ [LOW] } LOW _ rfl
  have hstored : ∀ s', loop scripted (j + 1) s = some s' →
      s'.sondeData s.sondeDataSize =
        0x69 ||| (s0.toNat * 1 + s1.toNat * 2 + s2.toNat * 4 + s3.toNat * 8 +
          s4.toNat * 16 + s5.toNat * 32 + s6.toNat * 64 + s7.toNat * 128) := by
    intro s' hs'
    rw [loop_of_wait _ _ _ _ hwait, hread] at hs'
    simp only [if_true] at hs'
    cases hs'
    rw [receiveFrame_mk_data _ _ _ _ _ _ hn]
    simp only [if_true]
    rw [sampleBits_scripted_run 105 _ s0 s1 s2 s3 s4 s5 s6 s7 rest rfl]
    exact assemble_i s0 s1 s2 s3 s4 s5 s6 s7
  have hret : ∃ s', loop scripted (j + 1) s = some s' := by
    rw [loop_of_wait _ _ _ _ hwait]
    exact ⟨_, rfl⟩
  obtain ⟨s', hs'⟩ := hret
  refine ⟨s', hs', hstored s' hs', ?_, ?_⟩
  · rw [hstored s' hs']
    exact i_or_bits _
  · rw [hstored s' hs']
    exact i_or_eq_iff s0 s1 s2 s3 s4 s5 s6 s7

/-- Witness for C10: a reset sketch, one HIGH read, then the frame of 0x41
(samples 1,0,0,0,0,0,1,0). -/
theorem loop_stores_i_or_samples_witness :
    (Sketch.reset (Script.start
      [HIGH, LOW, LOW, HIGH, LOW, LOW, LOW, LOW, LOW, HIGH, LOW, HIGH])).sondeDataSize
      < sondeDataLen ∧
    ∃ s', loop scripted 2 (Sketch.reset (Script.start
        [HIGH, LOW, LOW, HIGH, LOW, LOW, LOW, LOW, LOW, HIGH, LOW, HIGH])) = some s' ∧
      s'.sondeData 0 = 0x69 :=
  ⟨by decide,
    (loop_stores_i_or_samples 1 HIGH LOW LOW LOW LOW LOW HIGH LOW [HIGH]
      (Sketch.reset (Script.start
        [HIGH, LOW, LOW, HIGH, LOW, LOW, LOW, LOW, LOW, HIGH, LOW, HIGH]))
      (by decide) rfl).imp (fun _ h => ⟨h.1, h.2.1⟩)⟩

/-! ## Decoding depends on the samples only -/

theorem scripted_read_agree (p : Nat) (w1 w2 : Script) (h : w1.pending = w2.pending) :
    (scripted.digitalRead p w1).1 = (scripted.digitalRead p w2).1 ∧
      (scripted.digitalRead p w1).2.pending = (scripted.digitalRead p w2).2.pending := by
  unfold scripted
  cases h2 : w2.pending <;> simp [h, h2]

theorem waitStart_agree (fuel : Nat) (w1 w2 : Script) (h : w1.pending = w2.pending) :
    (∃ a b, waitStart scripted fuel w1 = some a ∧ waitStart scripted fuel w2 = some b ∧
        a.pending = b.pending) ∨
      (waitStart scripted fuel w1 = none ∧ waitStart scripted fuel w2 = none) := by
  induction fuel generalizing w1 w2 with
  | zero => exact Or.inr ⟨rfl, rfl⟩
  | succ n ih =>
    obtain ⟨hv, hp⟩ := scripted_read_agree rxPin w1 w2 h
    unfold waitStart
    generalize scripted.digitalRead rxPin w1 = r1 at hv hp
    generalize scripted.digitalRead rxPin w2 = r2 at hv hp
    obtain ⟨v1, a1⟩ := r1
    obtain ⟨v2, a2⟩ := r2
    simp only at hv hp
    subst hv
    cases v1 with
    | true => exact ih a1 a2 hp
    | false => exact Or.inl ⟨a1, a2, rfl, rfl, hp⟩

theorem sampleBit_agree (acc1 acc2 : Nat × Script) (offset : Nat)
    (hb : acc1.1 = acc2.1) (hp : acc1.2.pending = acc2.2.pending) :
    (sampleBit scripted acc1 offset).1 = (sampleBit scripted acc2 offset).1 ∧
      (sampleBit scripted acc1 offset).2.pending =
        (sampleBit scripted acc2 offset).2.pending := by
  have h := scripted_read_agree rxPin (scripted.delayMicroseconds bit9600Delay acc1.2)
    (scripted.delayMicroseconds bit9600Delay acc2.2) hp
  unfold sampleBit
  exact ⟨by simp only [h.1, hb], h.2⟩

theorem foldl_sampleBit_agree (offsets : List Nat) (acc1 acc2 : Nat × Script)
    (hb : acc1.1 = acc2.1) (hp : acc1.2.pending = acc2.2.pending) :
    (offsets.foldl (sampleBit scripted) acc1).1 = (offsets.foldl (sampleBit scripted) acc2).1 ∧
      (offsets.foldl (sampleBit scripted) acc1).2.pending =
        (offsets.foldl (sampleBit scripted) acc2).2.pending := by
  induction offsets generalizing acc1 acc2 with
  | nil => exact ⟨hb, hp⟩
  | cons o os ih =>
    obtain ⟨h1, h2⟩ := sampleBit_agree acc1 acc2 o hb hp
    exact ih _ _ h1 h2

theorem receiveFrame_agree (s1 s2 : Sketch Script) (h : sameDecoding s1 s2) :
    sameDecoding (receiveFrame scripted 105 s1) (receiveFrame scripted 105 s2) := by
  obtain ⟨hd, hn, hs, hp⟩ := h
  obtain ⟨hb, hp2⟩ := foldl_sampleBit_agree (List.range dataBits)
    (105, scripted.delayMicroseconds halfBit9600Delay s1.world)
    (105, scripted.delayMicroseconds halfBit9600Delay s2.world) rfl hp
  have hb2 : (sampleBits scripted 105 (scripted.delayMicroseconds halfBit9600Delay s1.world)).1
      = (sampleBits scripted 105 (scripted.delayMicroseconds halfBit9600Delay s2.world)).1 := hb
  refine ⟨?_, ?_, ?_, ?_⟩
  · by_cases hlt : s1.sondeDataSize < sondeDataLen
    · rw [receiveFrame_data _ _ _ hlt, receiveFrame_data _ _ _ (hn ▸ hlt), hd, hn, hb2]
    · simp only [receiveFrame, store_out_of_bounds _ _ _ hlt,
        store_out_of_bounds _ _ _ (hn ▸ hlt : ¬ s2.sondeDataSize < sondeDataLen)]
      exact hd
  · rw [receiveFrame_size, receiveFrame_size, hn]
  · by_cases hlt : s1.sondeDataSize < sondeDataLen
    · rw [receiveFrame_stray _ _ _ hlt, receiveFrame_stray _ _ _ (hn ▸ hlt), hs]
    · rw [receiveFrame_stray_full _ _ _ hlt,
        receiveFrame_stray_full _ _ _ (hn ▸ hlt : ¬ s2.sondeDataSize < sondeDataLen),
        hs, hn, hb2]
  · rw [receiveFrame_world, receiveFrame_world]
    exact hp2

theorem loop_agree (fuel : Nat) (s1 s2 : Sketch Script) (h : sameDecoding s1 s2) :
    (∃ a b, loop scripted fuel s1 = some a ∧ loop scripted fuel s2 = some b ∧
        sameDecoding a b) ∨
      (loop scripted fuel s1 = none ∧ loop scripted fuel s2 = none) := by
  rcases waitStart_agree fuel s1.world s2.world h.2.2.2 with ⟨a, b, ha, hb, hab⟩ | ⟨h1, h2⟩
  · left
    obtain ⟨hv, hp⟩ := scripted_read_agree rxPin a b hab
    refine ⟨_, _, loop_of_wait _ _ _ _ ha, loop_of_wait _ _ _ _ hb, ?_⟩
    rw [← hv]
    split
    · exact receiveFrame_agree _ _ ⟨h.1, h.2.1, h.2.2.1, hp⟩
    · exact ⟨h.1, h.2.1, h.2.2.1, hp⟩
  · exact Or.inr ⟨loop_of_no_wait _ _ _ h1, loop_of_no_wait _ _ _ h2⟩

theorem runLoops_agree (fuel n : Nat) (s1 s2 : Sketch Script) (h : sameDecoding s1 s2) :
    (∃ a b, runLoops scripted fuel n s1 = some a ∧ runLoops scripted fuel n s2 = some b ∧
        sameDecoding a b) ∨
      (runLoops scripted fuel n s1 = none ∧ runLoops scripted fuel n s2 = none) := by
  induction n generalizing s1 s2 with
  | zero => exact Or.inl ⟨s1, s2, rfl, rfl, h⟩
  | succ k ih =>
    unfold runLoops
    rcases loop_agree fuel s1 s2 h with ⟨a, b, ha, hb, hab⟩ | ⟨h1, h2⟩
    · rw [ha, hb]
      exact ih a b hab
    · rw [h1, h2]
      exact Or.inr ⟨rfl, rfl⟩

/-- C5: two receivers freshly reset (empty buffer, count 0) that are fed the
same sequence of pin samples give, after any number n of calls of loop, the
same cells and the same count, and the one run returns exactly when the other
does; what the two worlds hold besides the samples (the reads already logged,
the clock, the debug output) has no influence. -/
theorem decode_deterministic (fuel n : Nat) (samples : List Bool)
    (seen1 seen2 : List Bool) (t1 t2 : Nat) (out1 out2 : List String) :
    (runLoops scripted fuel n (Sketch.reset ⟨samples, seen1, t1, out1⟩)).map
        (fun r => (r.sondeData, r.sondeDataSize)) =
      (runLoops scripted fuel n (Sketch.reset ⟨samples, seen2, t2, out2⟩)).map
        (fun r => (r.sondeData, r.sondeDataSize)) := by
  rcases runLoops_agree fuel n (Sketch.reset ⟨samples, seen1, t1, out1⟩)
      (Sketch.reset ⟨samples, seen2, t2, out2⟩) ⟨rfl, rfl, rfl, rfl⟩ with
    ⟨a, b, ha, hb, hab⟩ | ⟨h1, h2⟩
  · rw [ha, hb]
    simp only [Option.map_some']
    rw [hab.1, hab.2.1]
  · rw [h1, h2]

/-! ## The count is not bounded by the capacity -/

theorem runLoops_succ_last {ω : Type} (hw : Arduino ω) (fuel n : Nat) (s : Sketch ω) :
    runLoops hw fuel (n + 1) s = (runLoops hw fuel n s).bind (loop hw fuel) := by
  induction n generalizing s with
  | zero =>
    show (loop hw fuel s).bind (fun a => some a) = loop hw fuel s
    cases loop hw fuel s <;> rfl
  | succ k ih =>
    rw [runLoops]
    cases h : loop hw fuel s with
    | none => simp [runLoops, h]
    | some a =>
      simp only [Option.some_bind]
      rw [ih a]
      conv_rhs => rw [runLoops, h]
      rfl

theorem sampleBit_wire_low (acc : Nat × Line) (offset : Nat) (hacc : acc.1 < 256)
    (hlow : ∀ t, acc.2.level t = LOW) :
    (sampleBit wire acc offset).1 = acc.1 ∧ ∀ t, (sampleBit wire acc offset).2.level t = LOW := by
  refine ⟨?_, hlow⟩
  have h : (wire.digitalRead rxPin (wire.delayMicroseconds bit9600Delay acc.2)).1 = LOW :=
    hlow _
  simp only [sampleBit, h]
  simpa using Nat.mod_eq_of_lt hacc

theorem foldl_sampleBit_wire_low (offsets : List Nat) (acc : Nat × Line) (hacc : acc.1 < 256)
    (hlow : ∀ t, acc.2.level t = LOW) :
    (offsets.foldl (sampleBit wire) acc).1 = acc.1 ∧
      ∀ t, (offsets.foldl (sampleBit wire) acc).2.level t = LOW := by
  induction offsets generalizing acc with
  | nil => exact ⟨rfl, hlow⟩
  | cons o os ih =>
    obtain ⟨h1, h2⟩ := sampleBit_wire_low acc o hacc hlow
    obtain ⟨h3, h4⟩ := ih (sampleBit wire acc o) (h1 ▸ hacc) h2
    exact ⟨h3.trans h1, h4⟩

/-- One call of loop on a line that is held LOW: the wait ends at once, the
confirming read is LOW, the 8 samples are 0 and the byte 0x69 is stored. -/
theorem loop_line_low (fuel : Nat) (s : Sketch Line) (hlow : ∀ t, s.world.level t = LOW) :
    ∃ s', loop wire (fuel + 1) s = some s' ∧
      s'.sondeDataSize = (s.sondeDataSize + 1) % uintModulus ∧
      (∀ t, s'.world.level t = LOW) ∧
      (s.sondeDataSize < sondeDataLen → s'.stray = s.stray) ∧
      (¬ s.sondeDataSize < sondeDataLen → s'.stray = s.stray ++ [(s.sondeDataSize, 105)]) := by
  obtain ⟨w1, hwait, hlow1⟩ : ∃ w1, waitStart wire (fuel + 1) s.world = some w1 ∧
      ∀ t, w1.level t = LOW := by
    refine ⟨{ s.world with micros := s.world.micros + s.world.readMicros }, ?_, hlow⟩
    unfold waitStart
    have h : wire.digitalRead rxPin s.world =
        (LOW, { s.world with micros := s.world.micros + s.world.readMicros }) := by
      show (s.world.level s.world.micros, _) = _
      rw [hlow]
    rw [h]
  have hconfirm : (wire.digitalRead rxPin w1).1 = LOW := hlow1 _
  have hlow2 : ∀ t, (wire.digitalRead rxPin w1).2.level t = LOW := hlow1
  obtain ⟨hb, hl⟩ := foldl_sampleBit_wire_low (List.range dataBits)
    (105, wire.delayMicroseconds halfBit9600Delay (wire.digitalRead rxPin w1).2)
    (show (105 : Nat) < 256 by decide) hlow2
  refine ⟨_, loop_of_wait _ _ _ _ hwait, ?_⟩
  rw [if_pos hconfirm]
  refine ⟨receiveFrame_size _ _ _, ?_, ?_, ?_⟩
  · rw [receiveFrame_world]
    exact hl
  · intro hlt
    have hlt2 : ({ s with world := (wire.digitalRead rxPin w1).2 } : Sketch Line).sondeDataSize
        < sondeDataLen := hlt
    exact receiveFrame_stray _ _ _ hlt2
  · intro hge
    have hge2 : ¬ ({ s with world := (wire.digitalRead rxPin w1).2 } :
        Sketch Line).sondeDataSize < sondeDataLen := hge
    rw [receiveFrame_stray_full _ _ _ hge2]
    show _ ++ [(s.sondeDataSize, (sampleBits wire 105 _).1)] = _
    unfold sampleBits
    rw [hb]

theorem runLoops_line_low (fuel n : Nat) (s : Sketch Line) (hlow : ∀ t, s.world.level t = LOW)
    (hroom : s.sondeDataSize + n ≤ sondeDataLen) :
    ∃ s', runLoops wire (fuel + 1) n s = some s' ∧ s'.sondeDataSize = s.sondeDataSize + n ∧
      (∀ t, s'.world.level t = LOW) ∧ s'.stray = s.stray := by
  induction n generalizing s with
  | zero => exact ⟨s, rfl, rfl, hlow, rfl⟩
  | succ k ih =>
    obtain ⟨a, ha, hsize, hl, hstray, _⟩ := loop_line_low fuel s hlow
    have hlt : s.sondeDataSize < sondeDataLen := by omega
    have hsize2 : a.sondeDataSize = s.sondeDataSize + 1 := by
      rw [hsize]
      apply Nat.mod_eq_of_lt
      unfold sondeDataLen at hlt
      unfold uintModulus
      omega
    obtain ⟨b, hb, hbsize, hbl, hbstray⟩ := ih a hl (by omega)
    refine ⟨b, ?_, by omega, hbl, by rw [hbstray, hstray hlt]⟩
    rw [runLoops, ha]
    exact hb

/-- C3 (the code at the failing input): from the reset state, 10000 calls of
loop on a line held LOW all return; the last one stores at index 9999, outside
the array, and leaves the count at 10000, above the capacity 9999. -/
theorem count_exceeds_capacity :
    ∃ s', runLoops wire 1 10000 (Sketch.reset (Line.start (fun _ => LOW) 0 0)) = some s' ∧
      s'.sondeDataSize = 10000 ∧ sondeDataLen < s'.sondeDataSize ∧
      s'.stray = [(9999, 105)] := by
  obtain ⟨a, ha, hsize, hl, hstray⟩ := runLoops_line_low 0 9999
    (Sketch.reset (Line.start (fun _ => LOW) 0 0)) (fun _ => rfl) (by decide)
  obtain ⟨b, hb, hbsize, _, _, hbstray⟩ := loop_line_low 0 a hl
  have hsize2 : a.sondeDataSize = 9999 := by
    rw [hsize]
    rfl
  have hfull : ¬ a.sondeDataSize < sondeDataLen := by
    rw [hsize2]
    decide
  have hb10000 : b.sondeDataSize = 10000 := by
    rw [hbsize, hsize2]
    rfl
  refine ⟨b, ?_, hb10000, ?_, ?_⟩
  · rw [show (10000 : Nat) = 9999 + 1 from rfl, runLoops_succ_last, ha]
    exact hb
  · rw [hb10000]
    decide
  · rw [hbstray hfull, hstray, hsize2]
    rfl

/-! ## At capacity -/

/-- C4 (counterexample): a sketch whose count is 9999 (every cell holding
0x69) decodes a frame from ten LOW reads: loop returns normally, the debug
output is the status line alone, the byte is stored at index 9999, outside
the array, and the count becomes 10000. -/
theorem loop_overruns_at_capacity :
    ∃ s', loop scripted 1
        ⟨fun _ => 105, 9999, [], Script.start (List.replicate 10 LOW)⟩ = some s' ∧
      s'.sondeDataSize = 10000 ∧ s'.stray = [(9999, 105)] ∧
      s'.world.serial = ["loop is running"] :=
  ⟨_, rfl, rfl, rfl, rfl⟩

/-- C4 (amended): whatever the count is, at the capacity as below it, when
loop decodes a frame (the busy wait ends and the confirming read is LOW) it
reports no error: it returns normally and the debug output of the iteration is
the status line alone. -/
theorem loop_at_capacity_no_error (fuel : Nat) (s : Sketch Script) (w1 : Script)
    (hwait : waitStart scripted fuel s.world = some w1)
    (hlow : (scripted.digitalRead rxPin w1).1 = LOW) :
    ∃ s', loop scripted fuel s = some s' ∧
      s'.world.serial = s.world.serial ++ ["loop is running"] := by
  refine ⟨_, loop_of_wait _ _ _ _ hwait, ?_⟩
  rw [if_pos hlow, receiveFrame_world]
  obtain ⟨_, _, _, hser, _⟩ := waitStart_scripted_trace fuel s.world w1 hwait
  have h := (sampleBits_scripted_trace 105
    (scripted.delayMicroseconds halfBit9600Delay (scripted.digitalRead rxPin w1).2)).1
  show (sampleBits scripted 105 _).2.serial ++ ["loop is running"] = _
  rw [h]
  show (scripted.digitalRead rxPin w1).2.serial ++ _ = _
  rw [scripted_read_serial, hser]

/-- Witness for C4 (amended): the sketch at capacity on ten LOW reads. -/
theorem loop_at_capacity_no_error_witness :
    (⟨fun _ => 105, 9999, [], Script.start (List.replicate 10 LOW)⟩ :
      Sketch Script).sondeDataSize = sondeDataLen ∧
    ∃ s', loop scripted 1
        ⟨fun _ => 105, 9999, [], Script.start (List.replicate 10 LOW)⟩ = some s' ∧
      s'.world.serial = [] ++ ["loop is running"] :=
  ⟨rfl, loop_at_capacity_no_error 1
    ⟨fun _ => 105, 9999, [], Script.start (List.replicate 10 LOW)⟩
    ⟨List.replicate 9 LOW, [LOW], 0, []⟩ rfl rfl⟩

/-! ## Frames on a timed line -/

/-- C1 (the code at the failing input): a line carrying the frame of 0x41 at
84 microseconds per bit. With instantaneous reads and loop entered at the
start edge, and also with reads of 1 microsecond and loop entered 5
microseconds before the edge, loop returns with the count at 1 and the byte
0x69, not 0x41, in cell 0. -/
theorem loop_frame_0x41 :
    (∃ s', loop wire 1 (Sketch.reset (Line.start (frameLevel 0 0x41) 0 0)) = some s' ∧
      s'.sondeDataSize = 1 ∧ s'.sondeData 0 = 0x69 ∧ s'.sondeData 0 ≠ 0x41) ∧
    (∃ s', loop wire 6 (Sketch.reset (Line.start (frameLevel 5 0x41) 0 1)) = some s' ∧
      s'.sondeDataSize = 1 ∧ s'.sondeData 0 = 0x69 ∧ s'.sondeData 0 ≠ 0x41) :=
  ⟨⟨_, rfl, rfl, rfl, by decide⟩, ⟨_, rfl, rfl, rfl, by decide⟩⟩

/-- C2 (the code at the failing input): two calls of loop on a line carrying
the frames of 0x41 and 0x42, instantaneous reads, loop entered at the first
start edge. When the second frame follows the stop bit of the first at once
(start edge at 840) the cells 0 and 1 hold 0x69 and 0xE9; when it follows
after half a bit of idle line (start edge at 882) they hold 0x69 and 0x6B. In
both cases the count is 2 and the buffer is not 0x41, 0x42. -/
theorem loops_frames_0x41_0x42 :
    (∃ s', runLoops wire 1 2
        (Sketch.reset (Line.start (twoFrames 0 0x41 840 0x42) 0 0)) = some s' ∧
      s'.sondeDataSize = 2 ∧ s'.sondeData 0 = 0x69 ∧ s'.sondeData 1 = 0xE9) ∧
    (∃ s', runLoops wire 1 2
        (Sketch.reset (Line.start (twoFrames 0 0x41 882 0x42) 0 0)) = some s' ∧
      s'.sondeDataSize = 2 ∧ s'.sondeData 0 = 0x69 ∧ s'.sondeData 1 = 0x6B) :=
  ⟨⟨_, rfl, rfl, rfl, rfl⟩, ⟨_, rfl, rfl, rfl, rfl⟩⟩

/-- C6 (counterexample): the frame of 0xFF received with the start bit
detected 63 microseconds after the start edge: the byte appended is 0xFF, the
byte that was sent. -/
theorem drift_keeps_0xFF :
    ∃ s', loop wire 1 (Sketch.reset (Line.start (frameLevel 0 0xFF) 63 0)) = some s' ∧
      s'.sondeDataSize = 1 ∧ s'.sondeData 0 = 0xFF :=
  ⟨_, rfl, rfl, rfl⟩

/-! ## A late start -/

theorem frameLevel_start (edge b t : Nat) (h1 : edge ≤ t) (h2 : t < edge + 84) :
    frameLevel edge b t = LOW := by
  have hs : (t - edge) / 84 = 0 := by omega
  simp [frameLevel, bit9600Delay, hs, Nat.not_lt.mpr h1]

theorem frameLevel_data (edge b t k : Nat) (hk : k < 8) (h1 : edge + 84 * (k + 1) ≤ t)
    (h2 : t < edge + 84 * (k + 2)) : frameLevel edge b t = b.testBit k := by
  have hs : (t - edge) / 84 = k + 1 := by omega
  have he : ¬ t < edge := by omega
  have hd : k + 1 ≤ dataBits := by unfold dataBits; omega
  simp [frameLevel, bit9600Delay, hs, he, hd]

theorem frameLevel_stop (edge b t : Nat) (h1 : edge + 84 * 9 ≤ t) :
    frameLevel edge b t = HIGH := by
  have hs : 9 ≤ (t - edge) / 84 := by omega
  have he : ¬ t < edge := by omega
  have h0 : (t - edge) / 84 ≠ 0 := by omega
  have hd : ¬ (t - edge) / 84 ≤ dataBits := by unfold dataBits; omega
  simp [frameLevel, bit9600Delay, he, h0, hd]

/-- The for loop on a timed line with instantaneous reads samples the level
every 84 microseconds. -/
theorem sampleBits_wire_instant (acc : Nat) (level : Nat → Bool) (t : Nat)
    (out : List String) :
    (sampleBits wire acc ⟨level, t, 0, out⟩).1 =
      ((((((((acc ||| ((level (t + 84)).toNat <<< 0)) % 256
        ||| ((level (t + 168)).toNat <<< 1)) % 256
        ||| ((level (t + 252)).toNat <<< 2)) % 256
        ||| ((level (t + 336)).toNat <<< 3)) % 256
        ||| ((level (t + 420)).toNat <<< 4)) % 256
        ||| ((level (t + 504)).toNat <<< 5)) % 256
        ||| ((level (t + 588)).toNat <<< 6)) % 256
        ||| ((level (t + 672)).toNat <<< 7)) % 256 := by
  simp [sampleBits, range_dataBits, sampleBit, wire, bit9600Delay, Nat.add_assoc]

/-- One call of loop on a timed line with instantaneous reads, entered while
the line is LOW: the wait ends at once and the frame body runs from the same
microsecond. -/
theorem loop_wire_instant (cells : Nat → Nat) (n : Nat) (st : List (Nat × Nat))
    (level : Nat → Bool) (t : Nat) (out : List String)
    (hn : n < sondeDataLen) (hlow : level t = LOW) :
    ∃ s', loop wire 1 ⟨cells, n, st, ⟨level, t, 0, out⟩⟩ = some s' ∧
      s'.sondeDataSize = (n + 1) % uintModulus ∧
      s'.sondeData n = (sampleBits wire 105 ⟨level, t + 42, 0, out⟩).1 := by
  have hwait : waitStart wire 1 (Sketch.mk cells n st ⟨level, t, 0, out⟩).world =
      some ⟨level, t, 0, out⟩ := by
    simp [waitStart, wire, hlow]
  have hread : wire.digitalRead rxPin ⟨level, t, 0, out⟩ = (LOW, ⟨level, t, 0, out⟩) := by
    simp [wire, hlow]
  refine ⟨_, loop_of_wait _ _ _ _ hwait, ?_⟩
  rw [hread]
  simp only [if_true]
  refine ⟨receiveFrame_size _ _ _, ?_⟩
  rw [receiveFrame_mk_data _ _ _ _ _ _ hn]
  simp only [if_true]
  rfl

set_option maxRecDepth 100000 in
theorem late_byte_differs : ∀ b, b < 256 → b ≠ 255 →
    ((((((((105 ||| ((b.testBit 1).toNat <<< 0)) % 256
        ||| ((b.testBit 2).toNat <<< 1)) % 256
        ||| ((b.testBit 3).toNat <<< 2)) % 256
        ||| ((b.testBit 4).toNat <<< 3)) % 256
        ||| ((b.testBit 5).toNat <<< 4)) % 256
        ||| ((b.testBit 6).toNat <<< 5)) % 256
        ||| ((b.testBit 7).toNat <<< 6)) % 256
        ||| (HIGH.toNat <<< 7)) % 256 ≠ b := by
  decide

/-- C6 (amended): a frame of a byte b other than 0xFF, at 84 microseconds per
bit, received with instantaneous reads by a call of loop that is entered, and
so detects the start bit, 63 microseconds after the start edge: loop returns
with the count at 1 and a byte different from b in cell 0. -/
theorem late_start_corrupts (edge b : Nat) (hb : b < 256) (hne : b ≠ 0xFF) :
    ∃ s', loop wire 1 (Sketch.reset (Line.start (frameLevel edge b) (edge + 63) 0)) = some s' ∧
      s'.sondeDataSize = 1 ∧ s'.sondeData 0 ≠ b := by
  obtain ⟨s', hs', hsize, hbyte⟩ := loop_wire_instant (fun _ => 0) 0 [] (frameLevel edge b)
    (edge + 63) [] (by decide) (frameLevel_start edge b _ (by omega) (by omega))
  refine ⟨s', hs', hsize, ?_⟩
  rw [hbyte, sampleBits_wire_instant,
    frameLevel_data edge b _ 1 (by omega) (by omega) (by omega),
    frameLevel_data edge b _ 2 (by omega) (by omega) (by omega),
    frameLevel_data edge b _ 3 (by omega) (by omega) (by omega),
    frameLevel_data edge b _ 4 (by omega) (by omega) (by omega),
    frameLevel_data edge b _ 5 (by omega) (by omega) (by omega),
    frameLevel_data edge b _ 6 (by omega) (by omega) (by omega),
    frameLevel_data edge b _ 7 (by omega) (by omega) (by omega),
    frameLevel_stop edge b _ (by omega)]
  exact late_byte_differs b hb hne

/-- Witness for C6 (amended): the byte 0x41 with the start edge at time 0. -/
theorem late_start_corrupts_witness :
    0x41 < 256 ∧ 0x41 ≠ 0xFF ∧
    ∃ s', loop wire 1 (Sketch.reset (Line.start (frameLevel 0 0x41) (0 + 63) 0)) = some s' ∧
      s'.sondeDataSize = 1 ∧ s'.sondeData 0 ≠ 0x41 :=
  ⟨by decide, by decide, late_start_corrupts 0 0x41 (by decide) (by decide)⟩

/-! ## A frame received on time -/

set_option maxRecDepth 100000 in
theorem timely_byte : ∀ b, b < 256 →
    ((((((((105 ||| ((b.testBit 0).toNat <<< 0)) % 256
        ||| ((b.testBit 1).toNat <<< 1)) % 256
        ||| ((b.testBit 2).toNat <<< 2)) % 256
        ||| ((b.testBit 3).toNat <<< 3)) % 256
        ||| ((b.testBit 4).toNat <<< 4)) % 256
        ||| ((b.testBit 5).toNat <<< 5)) % 256
        ||| ((b.testBit 6).toNat <<< 6)) % 256
        ||| ((b.testBit 7).toNat <<< 7)) % 256 = 105 ||| b := by
  decide

/-- A frame of any byte b at 84 microseconds per bit, received with
instantaneous reads by a call of loop entered at the start edge: every data
bit is sampled at its centre, and the byte stored in cell 0 is 0x69 OR b. -/
theorem loop_frame_instant (edge b : Nat) (hb : b < 256) :
    ∃ s', loop wire 1 (Sketch.reset (Line.start (frameLevel edge b) edge 0)) = some s' ∧
      s'.sondeDataSize = 1 ∧ s'.sondeData 0 = 105 ||| b := by
  obtain ⟨s', hs', hsize, hbyte⟩ := loop_wire_instant (fun _ => 0) 0 [] (frameLevel edge b)
    edge [] (by decide) (frameLevel_start edge b _ (by omega) (by omega))
  refine ⟨s', hs', hsize, ?_⟩
  rw [hbyte, sampleBits_wire_instant,
    frameLevel_data edge b _ 0 (by omega) (by omega) (by omega),
    frameLevel_data edge b _ 1 (by omega) (by omega) (by omega),
    frameLevel_data edge b _ 2 (by omega) (by omega) (by omega),
    frameLevel_data edge b _ 3 (by omega) (by omega) (by omega),
    frameLevel_data edge b _ 4 (by omega) (by omega) (by omega),
    frameLevel_data edge b _ 5 (by omega) (by omega) (by omega),
    frameLevel_data edge b _ 6 (by omega) (by omega) (by omega),
    frameLevel_data edge b _ 7 (by omega) (by omega) (by omega)]
  exact timely_byte b hb

end Sonde
